import Mathlib

/-!
Verification of the `strtr` in-memory Nostr relay core (`src/repository.ts`,
`src/main.ts`, `src/event.ts`, `src/filter.ts`).

The development is a shallow embedding: each TypeScript function of the
repository core is translated into an executable Lean definition that follows
the source line by line.  Mutable `Map`/`Set` state is represented by
association lists / lists with explicit state passing; the shared mutable
`ManagedEvent` reference (one instance per event id) is represented by flagging
the `deleted` bit in every structure that holds the event with that id, which
is observationally identical because the TypeScript code allocates exactly one
`ManagedEvent` per stored id.  JavaScript array reads that can hit `undefined`
(and the subsequent property-access crash) are modelled with `Option`: a
`none` result of an operation means the original program throws.
-/

namespace Strtr

/-- JavaScript string comparison `a < b` (lexicographic), decidable by
computation on the character lists. -/
def chLt : List Char → List Char → Bool
  | [], [] => false
  | [], _ :: _ => true
  | _ :: _, [] => false
  | c1 :: r1, c2 :: r2 => if c1 < c2 then true else if c2 < c1 then false else chLt r1 r2

/-- JavaScript `a < b` on strings. -/
def jsStrLt (a b : String) : Bool := chLt a.data b.data

/-- Association-list lookup with decidable key equality; models `Map.get`. -/
def lookupA {K V : Type} [DecidableEq K] : List (K × V) → K → Option V
  | [], _ => none
  | (k', v') :: rest, k => if k' = k then some v' else lookupA rest k

/-- Association-list update; models `Map.set` (replace the existing entry for
the key, or append a new one). -/
def setA {K V : Type} [DecidableEq K] : List (K × V) → K → V → List (K × V)
  | [], k, v => [(k, v)]
  | (k', v') :: rest, k, v => if k' = k then (k, v) :: rest else (k', v') :: setA rest k v

/-- Association-list removal; models `Map.delete`. -/
def eraseA {K V : Type} [DecidableEq K] : List (K × V) → K → List (K × V)
  | [], _ => []
  | (k', v') :: rest, k => if k' = k then rest else (k', v') :: eraseA rest k

/-- The data structure of a Nostr event (`src/event.ts`, type `NostrEvent`). -/
structure NostrEvent where
  id : String
  pubkey : String
  created_at : Int
  kind : Int
  tags : List (List String)
  content : String
  sig : String
deriving DecidableEq, Repr

/-- `getTagValuesByName` (`src/event.ts`): values of all tags with the given
name; a missing value slot (`t[1] ?? ""`) becomes the empty string. -/
def getTagValuesByName (ev : NostrEvent) (tagName : String) : List String :=
  (ev.tags.filter (fun t => t.head? = some tagName)).map (fun t => (t.get? 1).getD "")

/-- `isNonParamReplaceableEvent` (`src/event.ts`). -/
def isNonParamReplaceableEvent (ev : NostrEvent) : Bool :=
  ev.kind = 0 || ev.kind = 3 || (10000 ≤ ev.kind && ev.kind < 20000)

/-- `isParamReplaceableEvent` (`src/event.ts`). -/
def isParamReplaceableEvent (ev : NostrEvent) : Bool :=
  30000 ≤ ev.kind && ev.kind < 40000

/-- `isEphemeralEvent` (`src/event.ts`). -/
def isEphemeralEvent (ev : NostrEvent) : Bool :=
  20000 ≤ ev.kind && ev.kind < 30000

/-- `EventHandling` (`src/event.ts`). -/
inductive EventHandling where
  | regular
  | nonParamReplaceable
  | paramReplaceable
  | ephemeral
deriving DecidableEq, Repr

/-- `getEventHandling` (`src/event.ts`), testing the kind ranges in source
order. -/
def getEventHandling (ev : NostrEvent) : EventHandling :=
  if isNonParamReplaceableEvent ev then .nonParamReplaceable
  else if isParamReplaceableEvent ev then .paramReplaceable
  else if isEphemeralEvent ev then .ephemeral
  else .regular

/-- `validateEventSemantics` (`src/event.ts`): the only semantic check is that
a parameterized replaceable event carries a `d` tag. -/
def validateEventSemantics (ev : NostrEvent) : Bool :=
  if isParamReplaceableEvent ev then ¬(getTagValuesByName ev "d").isEmpty else true

/-- `compareNostrEvents` (`src/repository.ts`): ascending `created_at`; on a
tie the event with the lexicographically smaller id counts as newer (sorted
after), equal ids compare equal. -/
def compareNostrEvents (e1 e2 : NostrEvent) : Int :=
  let caDiff := e1.created_at - e2.created_at
  if caDiff ≠ 0 then caDiff
  else if jsStrLt e1.id e2.id then 1
  else if jsStrLt e2.id e1.id then -1
  else 0

/-- `ManagedEvent` (`src/repository.ts`): an event together with its mutable
`deleted` flag. -/
structure ManagedEvent where
  event : NostrEvent
  deleted : Bool
deriving DecidableEq, Repr

/-- Flag the managed event deleted when its id matches; models mutating the
single shared `ManagedEvent` instance for `id` through any alias. -/
def ManagedEvent.flagIf (id : String) (mev : ManagedEvent) : ManagedEvent :=
  if mev.event.id = id then { mev with deleted := true } else mev

/-- `EventBucket` (`src/repository.ts`): events kept in ascending order of
`compareNostrEvents`. -/
structure EventBucket where
  id : String
  events : List ManagedEvent
deriving DecidableEq, Repr

/-- `EventBucket.empty` smart constructor. -/
def EventBucket.emptyB (id : String) : EventBucket := ⟨id, []⟩

/-- `EventBucket.single` smart constructor. -/
def EventBucket.single (id : String) (mev : ManagedEvent) : EventBucket := ⟨id, [mev]⟩

/-- `EventBucket.size`. -/
def EventBucket.size (b : EventBucket) : Nat := b.events.length

/-- The backward sift of `EventBucket.insert`, expressed on the reversed list
(newest end first): the pushed event swaps leftward past every neighbour that
compares greater, stopping at the first neighbour comparing `≤ 0`. -/
def siftBackRev (mev : ManagedEvent) : List ManagedEvent → List ManagedEvent
  | [] => [mev]
  | e :: rest =>
    if compareNostrEvents e.event mev.event ≤ 0 then mev :: e :: rest
    else e :: siftBackRev mev rest

/-- `EventBucket.insert` (`src/repository.ts`): push then sift backward by
adjacent swaps until the ordering invariant holds. -/
def EventBucket.insertEv (b : EventBucket) (mev : ManagedEvent) : EventBucket :=
  { b with events := (siftBackRev mev b.events.reverse).reverse }

/-- JavaScript array read `events[i]`: `none` models reading `undefined`
(negative or too-large index), after which the source's property access
throws. -/
def jsIndex (events : List ManagedEvent) (i : Int) : Option ManagedEvent :=
  if i < 0 then none else events.get? i.toNat

/-- The `while (true)` loop of `EventBucket.searchStartIndex`
(`src/repository.ts`).  `(l + r) / 2` is euclidean division, which for the
positive divisor 2 is exactly `Math.floor((l + r) / 2)`.  A `none` result
models the exception thrown when `this.events[l]` (resp. `[m]`) is
`undefined`. -/
def searchGo (events : List ManagedEvent) (u : Int) (l r : Int) : Option Int :=
  if l ≥ r then
    match jsIndex events l with
    | none => none
    | some ent => some (if u ≥ ent.event.created_at then l else l - 1)
  else
    let m := (l + r) / 2
    match jsIndex events m with
    | none => none
    | some ent =>
      if u = ent.event.created_at then some m
      else if u < ent.event.created_at then searchGo events u l (m - 1)
      else searchGo events u (m + 1) r
termination_by (r - l).toNat
decreasing_by
  all_goals omega

/-- `EventBucket.searchStartIndex` (`src/repository.ts`). -/
def EventBucket.searchStartIndex (b : EventBucket) (u : Int) : Option Int :=
  searchGo b.events u 0 ((b.events.length : Int) - 1)

/-- A filter (`nostr-tools` `Filter`, spec section 4.2): optional `ids`,
`authors`, `kinds`, time bounds, limit, search, plus the `#X` tag queries as
an association list from tag name to accepted values. -/
structure Filter where
  ids : Option (List String) := none
  authors : Option (List String) := none
  kinds : Option (List Int) := none
  tagQueries : List (String × List String) := []
  since : Option Int := none
  untilTime : Option Int := none
  limit : Option Int := none
  search : Option String := none
deriving DecidableEq, Repr

/-- The match predicate of the external `nostr-tools` `matchFilter`, as fixed
by spec section 4.2: conjunction of `ids`/`authors`/`kinds` membership, the
inclusive `since`/`until` bounds, and, for each tag query, the existence of a
tag with that name whose value is in the accepted set. -/
def matchFilter (f : Filter) (ev : NostrEvent) : Bool :=
  (match f.ids with | none => true | some l => l.contains ev.id) &&
  (match f.kinds with | none => true | some l => l.contains ev.kind) &&
  (match f.authors with | none => true | some l => l.contains ev.pubkey) &&
  (f.tagQueries.all (fun q =>
    ev.tags.any (fun t => t.head? == some q.1 &&
      (match t.get? 1 with | none => false | some v => q.2.contains v)))) &&
  (match f.since with | none => true | some s => s ≤ ev.created_at) &&
  (match f.untilTime with | none => true | some u => ev.created_at ≤ u)

/-- `isNeverMatchingFilter` (`src/filter.ts`): trivially unsatisfiable when
`since > until` or any present array field is empty. -/
def isNeverMatchingFilter (f : Filter) : Bool :=
  (match f.since, f.untilTime with | some s, some u => s > u | _, _ => false) ||
  (match f.ids with | some l => l.isEmpty | none => false) ||
  (match f.authors with | some l => l.isEmpty | none => false) ||
  (match f.kinds with | some l => l.isEmpty | none => false) ||
  (f.tagQueries.any (fun q => q.2.isEmpty))

/-- Does the `since` clause of `EventBucket.query` break at this entry
(`filter.since !== undefined && ent.event.created_at < filter.since`)? -/
def sinceBreak (f : Filter) (ent : ManagedEvent) : Bool :=
  match f.since with
  | none => false
  | some s => ent.event.created_at < s

/-- The `for` loop of `EventBucket.query` (`src/repository.ts`): the downward
walk from start index `s` to 0 is rendered as the reversed prefix `take (s+1)`
of the events list; the `since` break is `takeWhile`, the deleted/match test
is `filter`. -/
def bucketQueryRun (events : List ManagedEvent) (f : Filter) (s : Int) : List NostrEvent :=
  (((events.take (s + 1).toNat).reverse.takeWhile
      (fun ent => !sinceBreak f ent)).filter
      (fun ent => !ent.deleted && matchFilter f ent.event)).map
      (fun ent => ent.event)

/-- `EventBucket.query` (`src/repository.ts`): compute the start index (last
index when `until` is unset, binary search otherwise) and run the downward
walk.  `none` models the exception from `searchStartIndex` (or an
out-of-bounds start index, which cannot arise from `searchStartIndex`
results). -/
def EventBucket.query (b : EventBucket) (f : Filter) : Option (List NostrEvent) :=
  match
    match f.untilTime with
    | none => some ((b.events.length : Int) - 1)
    | some u => b.searchStartIndex u
  with
  | none => none
  | some s =>
    if s ≥ (b.events.length : Int) then none
    else some (bucketQueryRun b.events f s)

/-- `CandidateBuckets` (`src/repository.ts`). -/
structure CandidateBuckets where
  buckets : List EventBucket
  totalSize : Nat
deriving DecidableEq, Repr

/-- `EventIndex` (`src/repository.ts`): key-to-bucket map of one secondary
index.  The key-computing closure is passed at each call site, as wired by the
`EventIndices` construction. -/
structure EventIndex (K : Type) where
  keyName : String
  buckets : List (K × EventBucket)
deriving DecidableEq, Repr

/-- The `for (const key of keys)` loop of `EventIndex.insert`
(`src/repository.ts`).  NOTE: the source `return`s (instead of continuing)
after creating a missing bucket, so the remaining keys are dropped; this model
reproduces that early return faithfully. -/
def indexInsertGo {K : Type} [DecidableEq K] [ToString K] (keyName : String)
    (buckets : List (K × EventBucket)) (mev : ManagedEvent) :
    List K → List (K × EventBucket)
  | [] => buckets
  | key :: rest =>
    match lookupA buckets key with
    | none => setA buckets key (EventBucket.single (keyName ++ "/" ++ toString key) mev)
    | some bucket => indexInsertGo keyName (setA buckets key (bucket.insertEv mev)) mev rest

/-- `EventIndex.insert` (`src/repository.ts`). -/
def EventIndex.insertEv {K : Type} [DecidableEq K] [ToString K] (idx : EventIndex K)
    (getKeys : NostrEvent → List K) (mev : ManagedEvent) : EventIndex K :=
  { idx with buckets := indexInsertGo idx.keyName idx.buckets mev (getKeys mev.event) }

/-- `EventIndex.getCandidateBuckets` (`src/repository.ts`): for a present
filter field, the buckets of the requested keys (missing keys skipped) with
their total size. -/
def EventIndex.getCandidateBuckets {K : Type} [DecidableEq K] (idx : EventIndex K)
    (keys : Option (List K)) : Option CandidateBuckets :=
  match keys with
  | none => none
  | some ks =>
    let buckets := ks.filterMap (fun k => lookupA idx.buckets k)
    some ⟨buckets, (buckets.map EventBucket.size).sum⟩

/-- Flag the event with this id deleted in every bucket of the index. -/
def EventIndex.flagDeleted {K : Type} (idx : EventIndex K) (id : String) : EventIndex K :=
  { idx with
    buckets := idx.buckets.map (fun p => (p.1, ⟨p.2.id, p.2.events.map (ManagedEvent.flagIf id)⟩)) }

/-- `ReplaceOutcome` (`src/repository.ts`). -/
structure ReplaceOutcome where
  addr : String
  overwritten : Option NostrEvent
  toBeStored : Option NostrEvent
deriving DecidableEq, Repr

/-- `replaceableEventAddr` (`src/repository.ts`): `none` models the exceptions
thrown for a d-tag-less parameterized replaceable event or a non-replaceable
event. -/
def replaceableEventAddr (ev : NostrEvent) : Option String :=
  match getEventHandling ev with
  | .nonParamReplaceable => some (toString ev.kind ++ ":" ++ ev.pubkey ++ ":")
  | .paramReplaceable =>
    match (getTagValuesByName ev "d").head? with
    | none => none
    | some d => some (toString ev.kind ++ ":" ++ ev.pubkey ++ ":" ++ d)
  | _ => none

/-- `ReplaceableEventTracker.replace` (`src/repository.ts`), on the tracker's
entry map.  A fresh address stores the event; an existing entry is replaced
exactly when the received event compares newer. -/
def trackerReplace (entries : List (String × NostrEvent)) (received : NostrEvent) :
    Option (ReplaceOutcome × List (String × NostrEvent)) :=
  match replaceableEventAddr received with
  | none => none
  | some addr =>
    match lookupA entries addr with
    | none => some (⟨addr, none, some received⟩, setA entries addr received)
    | some existing =>
      if compareNostrEvents received existing > 0 then
        some (⟨addr, some existing, some received⟩, setA entries addr received)
      else
        some (⟨addr, none, none⟩, entries)

/-- `ReplaceableEventTracker.delete` (`src/repository.ts`): remove and return
the entry when present. -/
def trackerDelete (entries : List (String × NostrEvent)) (addr : String) :
    Option NostrEvent × List (String × NostrEvent) :=
  match lookupA entries addr with
  | none => (none, entries)
  | some existing => (some existing, eraseA entries addr)

/-- `EventRepository` state (`src/repository.ts`): `#eventsById`,
`#allEventsSorted`, the four secondary `#indices`, `#reTracker` and
`#deletedEvents`. -/
structure RepoState where
  eventsById : List (String × ManagedEvent)
  allEventsSorted : EventBucket
  authorIndex : EventIndex String
  kindIndex : EventIndex Int
  eTagIndex : EventIndex String
  pTagIndex : EventIndex String
  reTracker : List (String × NostrEvent)
  deletedEvents : List String
deriving DecidableEq, Repr

/-- The freshly constructed repository. -/
def initState : RepoState :=
  { eventsById := []
    allEventsSorted := EventBucket.emptyB "all"
    authorIndex := ⟨"author", []⟩
    kindIndex := ⟨"kind", []⟩
    eTagIndex := ⟨"eTag", []⟩
    pTagIndex := ⟨"pTag", []⟩
    reTracker := []
    deletedEvents := [] }

/-- `EventRepository.#store` (`src/repository.ts`): wrap the event once and
insert the same managed instance into `eventsById`, the global bucket and
every index. -/
def RepoState.store (st : RepoState) (ev : NostrEvent) : RepoState :=
  let mev : ManagedEvent := ⟨ev, false⟩
  { st with
    eventsById := setA st.eventsById ev.id mev
    allEventsSorted := st.allEventsSorted.insertEv mev
    authorIndex := st.authorIndex.insertEv (fun e => [e.pubkey]) mev
    kindIndex := st.kindIndex.insertEv (fun e => [e.kind]) mev
    eTagIndex := st.eTagIndex.insertEv (fun e => getTagValuesByName e "e") mev
    pTagIndex := st.pTagIndex.insertEv (fun e => getTagValuesByName e "p") mev }

/-- Mutation `targ.delete()` observed through every alias of the shared
managed-event instance with this id. -/
def RepoState.flagDeleted (st : RepoState) (id : String) : RepoState :=
  { st with
    eventsById := st.eventsById.map (fun p => (p.1, ManagedEvent.flagIf id p.2))
    allEventsSorted := ⟨st.allEventsSorted.id,
                        st.allEventsSorted.events.map (ManagedEvent.flagIf id)⟩
    authorIndex := st.authorIndex.flagDeleted id
    kindIndex := st.kindIndex.flagDeleted id
    eTagIndex := st.eTagIndex.flagDeleted id
    pTagIndex := st.pTagIndex.flagDeleted id }

/-- `EventRepository.#deleteById` (`src/repository.ts`): false when the id is
absent, the requester is not the author, or the stored event is a kind-5
deletion event; otherwise flag the shared instance deleted. -/
def RepoState.deleteById (st : RepoState) (id requester : String) : Bool × RepoState :=
  match lookupA st.eventsById id with
  | none => (false, st)
  | some targ =>
    if requester ≠ targ.event.pubkey then (false, st)
    else if targ.event.kind = 5 then (false, st)
    else (true, st.flagDeleted id)

/-- `EventRepository.#deleteByAddr` (`src/repository.ts`).  NOTE: the source
removes the tracker entry first and only then checks the requester, so a
non-author request still evicts the tracker entry; the model reproduces
that. -/
def RepoState.deleteByAddr (st : RepoState) (addr requester : String) : RepoState :=
  let res := trackerDelete st.reTracker addr
  let st' := { st with reTracker := res.2 }
  match res.1 with
  | none => st'
  | some deletedEv =>
    if requester ≠ deletedEv.pubkey then st'
    else (st'.deleteById deletedEv.id requester).2

/-- Insertion outcome (`Result<object, EventRepositoryInsertionError>`). -/
inductive InsertOutcome where
  | ok
  | duplicated
  | deleted
deriving DecidableEq, Repr

/-- The `e`-tag loop of the kind-5 branch of `EventRepository.insert`: delete
each referenced id in order and record each successfully deleted id in
`#deletedEvents`. -/
def kind5DeleteETags (pubkey : String) (st : RepoState) : List String → RepoState
  | [] => st
  | e :: rest =>
    let res := st.deleteById e pubkey
    kind5DeleteETags pubkey
      (if res.1 then { res.2 with deletedEvents := res.2.deletedEvents.insert e } else res.2)
      rest

/-- The `a`-tag loop of the kind-5 branch of `EventRepository.insert`. -/
def kind5DeleteATags (pubkey : String) (st : RepoState) : List String → RepoState
  | [] => st
  | a :: rest => kind5DeleteATags pubkey (st.deleteByAddr a pubkey) rest

/-- `EventRepository.insert` (`src/repository.ts`).  `none` models the
ephemeral-event assertion failure and the exception from
`replaceableEventAddr`. -/
def RepoState.insert (st : RepoState) (ev : NostrEvent) : Option (InsertOutcome × RepoState) :=
  let evHandling := getEventHandling ev
  if evHandling = .ephemeral then none
  else if (lookupA st.eventsById ev.id).isSome then some (.duplicated, st)
  else if st.deletedEvents.contains ev.id then some (.deleted, st)
  else if ev.kind = 5 then
    let st := st.store ev
    let st := kind5DeleteETags ev.pubkey st (getTagValuesByName ev "e")
    let st := kind5DeleteATags ev.pubkey st (getTagValuesByName ev "a")
    some (.ok, st)
  else if evHandling = .nonParamReplaceable ∨ evHandling = .paramReplaceable then
    match trackerReplace st.reTracker ev with
    | none => none
    | some (outcome, entries) =>
      let st := { st with reTracker := entries }
      let st := match outcome.toBeStored with
        | some e => st.store e
        | none => st
      let st := match outcome.overwritten with
        | some ow => (st.deleteById ow.id ev.pubkey).2
        | none => st
      some (.ok, st)
  else
    some (.ok, st.store ev)

/-- `EventRepository.#selectIndex` (`src/repository.ts`): a filter with `ids`
scans the global bucket; otherwise the present candidate lists compete for the
smallest total size (ties broken by fewer buckets) against the global
bucket. -/
def RepoState.selectIndex (st : RepoState) (f : Filter) : List EventBucket :=
  if f.ids.isSome then [st.allEventsSorted]
  else
    let cands := [st.authorIndex.getCandidateBuckets f.authors,
                  st.kindIndex.getCandidateBuckets f.kinds,
                  st.eTagIndex.getCandidateBuckets (lookupA f.tagQueries "e"),
                  st.pTagIndex.getCandidateBuckets (lookupA f.tagQueries "p")]
    (cands.filterMap id).foldl
      (fun min cand =>
        if cand.totalSize < min.totalSize then cand
        else if cand.totalSize = min.totalSize ∧ cand.buckets.length < min.buckets.length then cand
        else min)
      ⟨[st.allEventsSorted], st.allEventsSorted.size⟩
    |>.buckets

/-- One ingestion side effect, for stating in which order the ingestor calls
the repository and the subscription pool. -/
inductive IngestAction where
  | insertCall (ev : NostrEvent)
  | broadcastCall (ev : NostrEvent)
deriving DecidableEq, Repr

/-- `EventIngestionOutcome` (`src/interfaces.ts`). -/
structure IngestOutcome where
  ok : Bool
  msg : String
deriving DecidableEq, Repr

/-- `EventIngestor.ingest` (`src/main.ts`): signature check (the external
`verifyEvent` is the oracle `sigOk`), semantic validation, repository insert
for non-ephemeral events with outcome translation, then broadcast.  The
returned action list records the repository/pool calls in order; `none`
propagates a repository exception. -/
def ingest (sigOk : NostrEvent → Bool) (st : RepoState) (ev : NostrEvent) :
    Option (IngestOutcome × RepoState × List IngestAction) :=
  if ¬sigOk ev then some (⟨false, "error: invalid signature"⟩, st, [])
  else if ¬validateEventSemantics ev then
    some (⟨false, "error: no d-tag in parametarized replaceable event"⟩, st, [])
  else if getEventHandling ev ≠ .ephemeral then
    match st.insert ev with
    | none => none
    | some (.duplicated, st') =>
      some (⟨true, "duplicate: already have this event"⟩, st', [.insertCall ev])
    | some (.deleted, st') =>
      some (⟨false, "error: already deleted this event"⟩, st', [.insertCall ev])
    | some (.ok, st') =>
      some (⟨true, ""⟩, st', [.insertCall ev, .broadcastCall ev])
  else
    some (⟨true, ""⟩, st, [.broadcastCall ev])

/-! Concrete inputs used by the closed counterexample and witness theorems. -/

/-- A non-parameterized replaceable event (kind 0) by author `p`. -/
def r2Ev : NostrEvent := ⟨"r2", "p", 101, 0, [], "", ""⟩

/-- A kind-5 deletion event by `p` targeting the replaceable address `0:p:`. -/
def d5Ev : NostrEvent := ⟨"d5", "p", 102, 5, [["a", "0:p:"]], "", ""⟩

/-- An older kind-0 event by `p` at the same replaceable address as `r2Ev`. -/
def r1Ev : NostrEvent := ⟨"r1", "p", 100, 0, [], "", ""⟩

/-- A regular event carrying two `e` tags whose buckets do not exist yet. -/
def multiEEv : NostrEvent := ⟨"m1", "p", 10, 1, [["e", "x"], ["e", "y"]], "", ""⟩

/-- Stored event with `created_at = 5` and the larger id `"b"`. -/
def dupTsB : ManagedEvent := ⟨⟨"b", "p", 5, 1, [], "", ""⟩, false⟩

/-- Stored event with `created_at = 5` and the smaller id `"a"`. -/
def dupTsA : ManagedEvent := ⟨⟨"a", "q", 5, 1, [], "", ""⟩, false⟩

/-- A bucket holding two events with the same timestamp, in ascending order of
the event ordering (`compareNostrEvents dupTsB.event dupTsA.event ≤ 0`). -/
def dupTsBucket : EventBucket := ⟨"all", [dupTsB, dupTsA]⟩

/-- The filter `until = 5` used against `dupTsBucket`. -/
def until5Filter : Filter := { untilTime := some 5 }

/-- A filter with `ids` and `until` set, as sent by a REQ with an `ids`
clause and an upper time bound. -/
def idsUntilFilter : Filter := { ids := some ["ff"], untilTime := some 1 }

/-- Repository state after inserting `r2Ev` into the fresh repository. -/
def c1Before : RepoState := (initState.insert r2Ev).elim initState Prod.snd

/-- `c1Before` after `#deleteByAddr("0:p:", "q")` requested by the non-author
`q`. -/
def c1After : RepoState := c1Before.deleteByAddr "0:p:" "q"

/-- Repository state after inserting the double-`e`-tagged `multiEEv`. -/
def c2State : RepoState := (initState.insert multiEEv).elim initState Prod.snd

/-- State after inserting `r2Ev`, then the address-deleting `d5Ev`, then the
older `r1Ev` (the C8 operation sequence). -/
def c8s1 : RepoState := (initState.insert r2Ev).elim initState Prod.snd

/-- Second state of the C8 sequence. -/
def c8s2 : RepoState := (c8s1.insert d5Ev).elim initState Prod.snd

/-- Final state of the C8 sequence. -/
def c8s3 : RepoState := (c8s2.insert r1Ev).elim initState Prod.snd

/-- Folding `ReplaceableEventTracker.replace` over a sequence of received
replaceable events: the tracker evolution produced by a sequence of
repository insertions of replaceable events (each `insert` performs exactly
one `replace`), with `none` propagating the `replaceableEventAddr`
exception. -/
def trackerFold : List NostrEvent → List (String × NostrEvent) → Option (List (String × NostrEvent))
  | [], entries => some entries
  | ev :: rest, entries =>
    match trackerReplace entries ev with
    | none => none
    | some (_, entries') => trackerFold rest entries'

/-- A regular event used for the duplicate-insertion witness. -/
def dupInsEv : NostrEvent := ⟨"e1", "p", 10, 1, [], "", ""⟩

/-- Repository state holding `dupInsEv`. -/
def dupInsState : RepoState := (initState.insert dupInsEv).elim initState Prod.snd

/-- A repository state whose deleted-id set contains `"gone"` (the id is not a
key of `eventsById`). -/
def deletedSetState : RepoState := { initState with deletedEvents := ["gone"] }

/-- An event whose id is in `deletedSetState`'s deleted-id set. -/
def goneEv : NostrEvent := ⟨"gone", "p", 9, 1, [], "", ""⟩

/-- A sorted three-event bucket (middle event flagged deleted) for the bucket
query witness. -/
def w5Bucket : EventBucket :=
  ⟨"w5", [⟨⟨"i10", "p", 10, 1, [], "", ""⟩, false⟩,
          ⟨⟨"i20", "q", 20, 1, [], "", ""⟩, true⟩,
          ⟨⟨"i30", "p", 30, 1, [], "", ""⟩, false⟩]⟩

/-- Replaceable kind-0 event by `p` with the smaller id of the tied pair. -/
def tieAEv : NostrEvent := ⟨"ta", "p", 7, 0, [], "", ""⟩

/-- Replaceable kind-0 event by `p`, same `created_at` as `tieAEv`, larger
id. -/
def tieBEv : NostrEvent := ⟨"tb", "p", 7, 0, [], "", ""⟩

/-- An ephemeral event (kind 20001). -/
def ephEv : NostrEvent := ⟨"ep", "p", 10, 20001, [], "", ""⟩

/-- A kind-5 deletion event whose `e` tag references the unknown id `x1`. -/
def danglingD5Ev : NostrEvent := ⟨"d9", "p", 50, 5, [["e", "x1"]], "", ""⟩

/-- A regular event whose id is the previously dangling reference `x1`. -/
def laterEv : NostrEvent := ⟨"x1", "p", 60, 1, [], "", ""⟩

/-!
## Theorems

First the closed theorems exhibiting divergences between the code and the
claims, then the general theorems (with their witnesses).
-/

/-- C1: the claim states that `deleteByAddr(a, r)` leaves the repository state
unchanged — in particular the tracker entry at `a` still present — whenever
the tracker entry's author differs from `r`.  The code removes the tracker
entry before checking the requester: after the non-author request the tracker
entry at `0:p:` is gone (while the stored event itself is indeed left
unflagged). -/
theorem c1_nonauthor_deleteByAddr_evicts_tracker_entry :
    initState.insert r2Ev = some (.ok, c1Before) ∧
    lookupA c1Before.reTracker "0:p:" = some r2Ev ∧
    r2Ev.pubkey ≠ "q" ∧
    lookupA c1After.reTracker "0:p:" = none ∧
    lookupA c1After.eventsById "r2" = some ⟨r2Ev, false⟩ := by
  decide

/-- C2: the claim states that the index insert puts the managed event into the
bucket of every key computed for the event, creating missing buckets, also
when several tag values have no bucket yet.  The code returns from the key
loop right after creating the first missing bucket: inserting an event with
`e`-tags `x` and `y` into the fresh repository creates the `x` bucket but
leaves key `y` without any bucket. -/
theorem c2_index_insert_drops_keys_after_new_bucket :
    initState.insert multiEEv = some (.ok, c2State) ∧
    getTagValuesByName multiEEv "e" = ["x", "y"] ∧
    lookupA c2State.eventsById "m1" = some ⟨multiEEv, false⟩ ∧
    lookupA c2State.eTagIndex.buckets "x" =
      some ⟨"eTag/x", [⟨multiEEv, false⟩]⟩ ∧
    lookupA c2State.eTagIndex.buckets "y" = none := by
  decide

/-- C3: the claim states that on a sorted non-empty bucket the binary search
returns the largest index `i` with `events[i].created_at ≤ until`, also when
several events share `created_at = until`.  On the sorted two-event bucket
with both timestamps equal to `until = 5` the code returns index 0, although
index 1 also satisfies the bound; consequently the bucket query misses the
matching event at index 1. -/
theorem c3_searchStartIndex_not_largest_on_equal_timestamps :
    compareNostrEvents dupTsB.event dupTsA.event ≤ 0 ∧
    dupTsBucket.events.length = 2 ∧
    (dupTsBucket.events.get? 1).map (fun ent => ent.event.created_at) = some 5 ∧
    dupTsBucket.searchStartIndex 5 = some 0 ∧
    matchFilter until5Filter dupTsA.event = true ∧
    dupTsBucket.query until5Filter = some [dupTsB.event] := by
  refine ⟨by decide, by decide, by decide, ?_, by decide, ?_⟩
  · simp only [EventBucket.searchStartIndex]
    rw [searchGo.eq_def]
    decide
  · simp only [EventBucket.query, EventBucket.searchStartIndex, until5Filter, dupTsBucket]
    rw [searchGo.eq_def]
    decide

/-- C4: the claim states that the bucket query is total — in particular a
filter with `until` set against an empty bucket reads no element outside the
events array.  On the fresh repository a filter with `ids` and `until`
selects the empty global bucket, is not skipped as never-matching or
zero-limit, and the bucket query crashes (the binary search reads
`events[0]` of the empty array): the model returns `none`. -/
theorem c4_query_crashes_on_empty_bucket_with_until :
    initState.selectIndex idsUntilFilter = [initState.allEventsSorted] ∧
    isNeverMatchingFilter idsUntilFilter = false ∧
    idsUntilFilter.limit = none ∧
    initState.allEventsSorted.events = [] ∧
    initState.allEventsSorted.query idsUntilFilter = none := by
  refine ⟨by decide, by decide, by decide, by decide, ?_⟩
  simp only [EventBucket.query, EventBucket.searchStartIndex, idsUntilFilter, initState,
    EventBucket.emptyB]
  rw [searchGo.eq_def]
  decide

/-- C8 counterexample: the claim states that after any sequence of repository
operations the tracker entry at an address is the maximum, under the event
ordering, of all replaceable events ever admitted there.  After admitting
`r2Ev` (created_at 101), a kind-5 event deleting the address, and then the
older `r1Ev` (created_at 100) — all three inserts succeed — the tracker entry
at `0:p:` is `r1Ev`, although `r2Ev` was admitted at the same address and
compares strictly newer. -/
theorem c8_tracker_entry_not_alltime_max_after_addr_deletion :
    initState.insert r2Ev = some (.ok, c8s1) ∧
    c8s1.insert d5Ev = some (.ok, c8s2) ∧
    c8s2.insert r1Ev = some (.ok, c8s3) ∧
    replaceableEventAddr r2Ev = some "0:p:" ∧
    replaceableEventAddr r1Ev = some "0:p:" ∧
    lookupA c8s3.reTracker "0:p:" = some r1Ev ∧
    compareNostrEvents r2Ev r1Ev > 0 := by
  decide

/-! ### Association-list helper lemmas -/

/-- Lookup commutes with mapping over the values of an association list. -/
theorem lookupA_map {K V W : Type} [DecidableEq K] (f : V → W) (l : List (K × V)) (k : K) :
    lookupA (l.map (fun p => (p.1, f p.2))) k = (lookupA l k).map f := by
  induction l with
  | nil => rfl
  | cons p rest ih =>
    obtain ⟨k', v'⟩ := p
    by_cases h : k' = k <;> simp [lookupA, h, ih]

/-- Lookup of the just-set key. -/
theorem lookupA_setA_self {K V : Type} [DecidableEq K] (l : List (K × V)) (k : K) (v : V) :
    lookupA (setA l k v) k = some v := by
  induction l with
  | nil => simp [setA, lookupA]
  | cons p rest ih =>
    obtain ⟨k', v'⟩ := p
    by_cases h : k' = k <;> simp [setA, lookupA, h, ih]

/-- Lookup of a different key is unaffected by `setA`. -/
theorem lookupA_setA_ne {K V : Type} [DecidableEq K] (l : List (K × V)) (k k' : K) (v : V)
    (h : k' ≠ k) : lookupA (setA l k v) k' = lookupA l k' := by
  have hsym : k ≠ k' := h.symm
  induction l with
  | nil => simp [setA, lookupA, hsym]
  | cons p rest ih =>
    obtain ⟨k'', v''⟩ := p
    by_cases hk : k'' = k
    · subst hk
      simp [setA, lookupA, hsym]
    · simp [setA, lookupA, hk, ih]

/-- C6: inserting an event whose id is already a key of `eventsById` returns
`duplicated` and leaves the repository state unchanged (the ingestor surfaces
this as accepted, with the duplicate message); when the id is absent from
`eventsById` but in the deleted-id set, insertion returns `deleted`.  The
duplicate check runs first: the `duplicated` case does not assume anything
about the deleted-id set. -/
theorem c6_insert_duplicate_before_deleted (st : RepoState) (ev : NostrEvent)
    (hne : getEventHandling ev ≠ EventHandling.ephemeral) :
    ((lookupA st.eventsById ev.id).isSome = true →
      st.insert ev = some (.duplicated, st)) ∧
    ((lookupA st.eventsById ev.id).isSome = false →
      ev.id ∈ st.deletedEvents →
      st.insert ev = some (.deleted, st)) ∧
    (∀ sigOk : NostrEvent → Bool, sigOk ev = true → validateEventSemantics ev = true →
      (lookupA st.eventsById ev.id).isSome = true →
      ingest sigOk st ev =
        some (⟨true, "duplicate: already have this event"⟩, st, [.insertCall ev])) := by
  refine ⟨fun hdup => ?_, fun hnodup hdel => ?_, fun sigOk hsig hsem hdup => ?_⟩
  · simp [RepoState.insert, hne, hdup]
  · simp [RepoState.insert, hne, hnodup, hdel]
  · simp [ingest, hsig, hsem, hne, RepoState.insert, hdup]

/-- C6 witness: re-inserting the stored event is reported `duplicated` with
the state unchanged and surfaced as accepted; inserting an event whose id is
only in the deleted-id set is reported `deleted`. -/
theorem c6_insert_duplicate_before_deleted_witness :
    dupInsState.insert dupInsEv = some (.duplicated, dupInsState) ∧
    deletedSetState.insert goneEv = some (.deleted, deletedSetState) ∧
    ingest (fun _ => true) dupInsState dupInsEv =
      some (⟨true, "duplicate: already have this event"⟩, dupInsState,
        [.insertCall dupInsEv]) := by
  refine ⟨(c6_insert_duplicate_before_deleted dupInsState dupInsEv (by decide)).1 (by decide),
    (c6_insert_duplicate_before_deleted deletedSetState goneEv (by decide)).2.1
      (by decide) (by decide),
    (c6_insert_duplicate_before_deleted dupInsState dupInsEv (by decide)).2.2
      (fun _ => true) rfl (by decide) (by decide)⟩

/-- C7: `deleteById(id, requester)` returns false and changes nothing when the
id is absent, when the requester differs from the stored event's author, or
when the stored event is a kind-5 deletion event (so a kind-5 event is never
deletable, by any requester, including itself); otherwise it flags the shared
managed event deleted and returns true.  The `targ.event.id = id` premise of
the success case is the `eventsById` key invariant (`Map.set(ev.id, mev)`). -/
theorem c7_deleteById_guards (st : RepoState) (id requester : String) :
    (lookupA st.eventsById id = none → st.deleteById id requester = (false, st)) ∧
    (∀ targ, lookupA st.eventsById id = some targ →
      (requester ≠ targ.event.pubkey → st.deleteById id requester = (false, st)) ∧
      (targ.event.kind = 5 → st.deleteById id requester = (false, st)) ∧
      (requester = targ.event.pubkey → targ.event.kind ≠ 5 → targ.event.id = id →
        st.deleteById id requester = (true, st.flagDeleted id) ∧
        lookupA (st.flagDeleted id).eventsById id = some ⟨targ.event, true⟩)) := by
  refine ⟨fun habs => ?_, fun targ hfound => ⟨fun hauth => ?_, fun h5 => ?_,
    fun hauth h5 hid => ⟨?_, ?_⟩⟩⟩
  · simp [RepoState.deleteById, habs]
  · simp [RepoState.deleteById, hfound, hauth]
  · simp [RepoState.deleteById, hfound, h5]
  · simp [RepoState.deleteById, hfound, hauth, h5]
  · simp only [RepoState.flagDeleted, lookupA_map, hfound, Option.map_some]
    simp [ManagedEvent.flagIf, hid]

/-- C7 witness: in the state holding `dupInsEv` (author `p`), a deletion
request by the non-author `q` returns false and leaves the state unchanged,
and the author's own request flags the event deleted. -/
theorem c7_deleteById_guards_witness :
    dupInsState.deleteById "e1" "q" = (false, dupInsState) ∧
    dupInsState.deleteById "e1" "p" = (true, dupInsState.flagDeleted "e1") ∧
    lookupA (dupInsState.flagDeleted "e1").eventsById "e1" = some ⟨dupInsEv, true⟩ := by
  refine ⟨((c7_deleteById_guards dupInsState "e1" "q").2 ⟨dupInsEv, false⟩
      (by decide)).1 (by decide),
    (((c7_deleteById_guards dupInsState "e1" "p").2 ⟨dupInsEv, false⟩
      (by decide)).2.2 (by decide) (by decide) (by decide)).1,
    (((c7_deleteById_guards dupInsState "e1" "p").2 ⟨dupInsEv, false⟩
      (by decide)).2.2 (by decide) (by decide) (by decide)).2⟩

/-- C9: for a completed ingestion, the pool broadcast happens exactly when the
event passed signature and semantic validation and either is ephemeral
(repository untouched, no insert call) or the repository insert returned
success; duplicated/deleted outcomes are never broadcast, and when a
broadcast happens for a non-ephemeral event it strictly follows the completed
insert call in the action trace. -/
theorem c9_broadcast_iff_valid_and_inserted (sigOk : NostrEvent → Bool)
    (st : RepoState) (ev : NostrEvent) (out : IngestOutcome) (st' : RepoState)
    (tr : List IngestAction)
    (h : ingest sigOk st ev = some (out, st', tr)) :
    (IngestAction.broadcastCall ev ∈ tr ↔
      sigOk ev = true ∧ validateEventSemantics ev = true ∧
        (getEventHandling ev = .ephemeral ∨ st.insert ev = some (.ok, st'))) ∧
    (getEventHandling ev = .ephemeral → st' = st ∧ IngestAction.insertCall ev ∉ tr) ∧
    (IngestAction.broadcastCall ev ∈ tr →
      tr = [.insertCall ev, .broadcastCall ev] ∨
        (getEventHandling ev = .ephemeral ∧ tr = [.broadcastCall ev])) ∧
    (∀ st2 : RepoState,
      st.insert ev = some (.duplicated, st2) ∨ st.insert ev = some (.deleted, st2) →
      IngestAction.broadcastCall ev ∉ tr) := by
  by_cases hsig : sigOk ev = true
  · by_cases hsem : validateEventSemantics ev = true
    · by_cases heph : getEventHandling ev = .ephemeral
      · rw [ingest, if_neg (by simp [hsig]), if_neg (by simp [hsem]),
          if_neg (by simp [heph])] at h
        obtain ⟨rfl, rfl, rfl⟩ : (⟨true, ""⟩ : IngestOutcome) = out ∧ st = st' ∧
            [IngestAction.broadcastCall ev] = tr := by
          simpa using h
        refine ⟨by simp [hsig, hsem, heph], fun _ => ⟨rfl, by simp⟩,
          fun _ => Or.inr ⟨heph, rfl⟩, fun st2 hdd => ?_⟩
        rcases hdd with hd | hd <;> simp [RepoState.insert, heph] at hd
      · rw [ingest, if_neg (by simp [hsig]), if_neg (by simp [hsem]),
          if_pos (by simp [heph])] at h
        rcases hins : st.insert ev with _ | ⟨outc, stn⟩
        · rw [hins] at h
          exact absurd h (by simp)
        · rw [hins] at h
          cases outc
          · obtain ⟨rfl, rfl, rfl⟩ : (⟨true, ""⟩ : IngestOutcome) = out ∧ stn = st' ∧
                [IngestAction.insertCall ev, IngestAction.broadcastCall ev] = tr := by
              simpa using h
            refine ⟨by simp [hsig, hsem, hins], fun he => absurd he heph,
              fun _ => Or.inl rfl, fun st2 hdd => ?_⟩
            rcases hdd with hd | hd <;> simp [hins] at hd
          · obtain ⟨rfl, rfl, rfl⟩ : (⟨true, "duplicate: already have this event"⟩ :
                IngestOutcome) = out ∧ stn = st' ∧ [IngestAction.insertCall ev] = tr := by
              simpa using h
            refine ⟨by simp [heph, hins], fun he => absurd he heph, by simp,
              fun st2 _ => by simp⟩
          · obtain ⟨rfl, rfl, rfl⟩ : (⟨false, "error: already deleted this event"⟩ :
                IngestOutcome) = out ∧ stn = st' ∧ [IngestAction.insertCall ev] = tr := by
              simpa using h
            refine ⟨by simp [heph, hins], fun he => absurd he heph, by simp,
              fun st2 _ => by simp⟩
    · rw [ingest, if_neg (by simp [hsig]), if_pos (by simp [hsem])] at h
      obtain ⟨rfl, rfl, rfl⟩ : (⟨false, "error: no d-tag in parametarized replaceable event"⟩ :
          IngestOutcome) = out ∧ st = st' ∧ ([] : List IngestAction) = tr := by
        simpa using h
      exact ⟨by simp [hsem], fun _ => ⟨rfl, by simp⟩, by simp, fun st2 _ => by simp⟩
  · rw [ingest, if_pos (by simp [hsig])] at h
    obtain ⟨rfl, rfl, rfl⟩ : (⟨false, "error: invalid signature"⟩ : IngestOutcome) = out ∧
        st = st' ∧ ([] : List IngestAction) = tr := by
      simpa using h
    exact ⟨by simp [hsig], fun _ => ⟨rfl, by simp⟩, by simp, fun st2 _ => by simp⟩

/-- C9 witness: ingesting the ephemeral `ephEv` broadcasts without any insert
call and leaves the repository untouched. -/
theorem c9_broadcast_iff_valid_and_inserted_witness :
    ingest (fun _ => true) initState ephEv =
      some (⟨true, ""⟩, initState, [.broadcastCall ephEv]) ∧
    IngestAction.insertCall ephEv ∉ [IngestAction.broadcastCall ephEv] :=
  ⟨by decide,
    ((c9_broadcast_iff_valid_and_inserted (fun _ => true) initState ephEv ⟨true, ""⟩
      initState [.broadcastCall ephEv] (by decide)).2.1 (by decide)).2⟩

/-- Soundness of the bucket walk: on a bucket sorted ascending by
`created_at`, every yielded event passes the filter match with its deleted
flag false, and the yielded sequence is non-increasing in `created_at`. -/
theorem bucketQueryRun_spec (events : List ManagedEvent) (f : Filter) (s : Int)
    (hsorted : events.Pairwise (fun x y => x.event.created_at ≤ y.event.created_at)) :
    (∀ e ∈ bucketQueryRun events f s, matchFilter f e = true ∧
      ∃ mev ∈ events, mev.event = e ∧ mev.deleted = false) ∧
    (bucketQueryRun events f s).Pairwise (fun e1 e2 => e2.created_at ≤ e1.created_at) := by
  constructor
  · intro e he
    simp only [bucketQueryRun, List.mem_map] at he
    obtain ⟨ent, hent, rfl⟩ := he
    have hf := List.mem_filter.mp hent
    have hdm : ent.deleted = false ∧ matchFilter f ent.event = true := by
      have hh := hf.2
      simp only [Bool.and_eq_true, Bool.not_eq_true'] at hh
      exact ⟨hh.1, hh.2⟩
    have h2 : ent ∈ (events.take (s + 1).toNat).reverse :=
      (List.takeWhile_sublist _).subset hf.1
    have h3 : ent ∈ events.take (s + 1).toNat := List.mem_reverse.mp h2
    exact ⟨hdm.2, ent, (List.take_sublist _ _).subset h3, rfl, hdm.1⟩
  · have p1 : (events.take (s + 1).toNat).Pairwise
        (fun x y => x.event.created_at ≤ y.event.created_at) :=
      hsorted.sublist (List.take_sublist _ _)
    have p2 : ((events.take (s + 1).toNat).reverse).Pairwise
        (fun x y => y.event.created_at ≤ x.event.created_at) :=
      List.pairwise_reverse.mpr p1
    have p3 := p2.sublist (List.takeWhile_sublist (fun ent => !sinceBreak f ent))
    simp only [bucketQueryRun]
    exact List.pairwise_map.mpr (p3.sublist (List.filter_sublist _))

/-- C5: for every filter and every bucket whose events are sorted ascending in
time (the bucket invariant), a completed bucket query yields only events that
satisfy the filter's match predicate and whose deleted flag is false, in
non-increasing `created_at` order; deleted-flagged events are never
yielded. -/
theorem c5_bucket_query_matches_nondeleted_descending (b : EventBucket) (f : Filter)
    (l : List NostrEvent)
    (hsorted : b.events.Pairwise (fun x y => x.event.created_at ≤ y.event.created_at))
    (hq : b.query f = some l) :
    (∀ e ∈ l, matchFilter f e = true ∧
      ∃ mev ∈ b.events, mev.event = e ∧ mev.deleted = false) ∧
    l.Pairwise (fun e1 e2 => e2.created_at ≤ e1.created_at) := by
  simp only [EventBucket.query] at hq
  split at hq
  · exact absurd hq (by simp)
  · split at hq
    · exact absurd hq (by simp)
    · cases hq
      exact bucketQueryRun_spec _ _ _ hsorted

/-- C5 witness: querying the sorted three-event bucket (middle event flagged
deleted) with the empty filter yields exactly the two live events, newest
first, each matching and non-deleted. -/
theorem c5_bucket_query_witness :
    w5Bucket.query {} =
      some [⟨"i30", "p", 30, 1, [], "", ""⟩, ⟨"i10", "p", 10, 1, [], "", ""⟩] ∧
    (∀ e ∈ [(⟨"i30", "p", 30, 1, [], "", ""⟩ : NostrEvent), ⟨"i10", "p", 10, 1, [], "", ""⟩],
      matchFilter {} e = true ∧
      ∃ mev ∈ w5Bucket.events, mev.event = e ∧ mev.deleted = false) ∧
    List.Pairwise (fun e1 e2 : NostrEvent => e2.created_at ≤ e1.created_at)
      [⟨"i30", "p", 30, 1, [], "", ""⟩, ⟨"i10", "p", 10, 1, [], "", ""⟩] := by
  have hsorted : w5Bucket.events.Pairwise
      (fun x y => x.event.created_at ≤ y.event.created_at) := by
    simp [w5Bucket, List.pairwise_cons]
  have h := c5_bucket_query_matches_nondeleted_descending w5Bucket {}
    [⟨"i30", "p", 30, 1, [], "", ""⟩, ⟨"i10", "p", 10, 1, [], "", ""⟩] hsorted (by decide)
  exact ⟨by decide, h.1, h.2⟩

/-! ### The event ordering is a total preorder -/

/-- Lexicographic character-list comparison is irreflexive. -/
theorem chLt_irrefl (a : List Char) : chLt a a = false := by
  induction a with
  | nil => rfl
  | cons c rest ih => simp [chLt, ih]

/-- Unfolding of `chLt` on two non-empty lists. -/
theorem chLt_cons (c1 c2 : Char) (r1 r2 : List Char) :
    chLt (c1 :: r1) (c2 :: r2) = true ↔ c1 < c2 ∨ (c1 = c2 ∧ chLt r1 r2 = true) := by
  simp only [chLt]
  split_ifs with h1 h2
  · simp [h1]
  · have hne : c1 ≠ c2 := by
      intro hh
      rw [hh] at h2
      exact absurd h2 (lt_irrefl c2)
    simp [h1, hne]
  · have heq : c1 = c2 := le_antisymm (not_lt.mp h2) (not_lt.mp h1)
    simp [h1, heq]

/-- Lexicographic character-list comparison is transitive. -/
theorem chLt_trans : ∀ a b c : List Char,
    chLt a b = true → chLt b c = true → chLt a c = true := by
  intro a
  induction a with
  | nil =>
    intro b c hab hbc
    cases b with
    | nil => simp [chLt] at hab
    | cons cb rb =>
      cases c with
      | nil => simp [chLt] at hbc
      | cons cc rc => simp [chLt]
  | cons ca ra ih =>
    intro b c hab hbc
    cases b with
    | nil => simp [chLt] at hab
    | cons cb rb =>
      cases c with
      | nil => simp [chLt] at hbc
      | cons cc rc =>
        rw [chLt_cons] at hab hbc ⊢
        rcases hab with h1 | ⟨h1, h1r⟩
        · rcases hbc with h2 | ⟨h2, _⟩
          · exact Or.inl (lt_trans h1 h2)
          · exact Or.inl (h2 ▸ h1)
        · subst h1
          rcases hbc with h2 | ⟨h2, h2r⟩
          · exact Or.inl h2
          · exact Or.inr ⟨h2, ih rb rc h1r h2r⟩

/-- Lexicographic character-list comparison is asymmetric. -/
theorem chLt_asymm (a b : List Char) (h : chLt a b = true) : chLt b a = false := by
  by_contra hh
  rw [Bool.not_eq_false] at hh
  have := chLt_trans a b a h hh
  rw [chLt_irrefl] at this
  exact Bool.false_ne_true this

/-- Lexicographic character-list comparison is trichotomous. -/
theorem chLt_trichotomy (a b : List Char) :
    chLt a b = true ∨ chLt b a = true ∨ a = b := by
  induction a generalizing b with
  | nil =>
    cases b with
    | nil => exact Or.inr (Or.inr rfl)
    | cons cb rb => exact Or.inl (by simp [chLt])
  | cons ca ra ih =>
    cases b with
    | nil => exact Or.inr (Or.inl (by simp [chLt]))
    | cons cb rb =>
      rcases lt_trichotomy ca cb with h | h | h
      · exact Or.inl (by simp [chLt, h])
      · subst h
        rcases ih rb with h2 | h2 | h2
        · exact Or.inl (by simp [chLt, h2])
        · exact Or.inr (Or.inl (by simp [chLt, h2]))
        · exact Or.inr (Or.inr (by rw [h2]))
      · exact Or.inr (Or.inl (by simp [chLt, h]))

/-- `compareNostrEvents a b ≤ 0` characterized on the fields. -/
theorem compare_le_iff (a b : NostrEvent) :
    compareNostrEvents a b ≤ 0 ↔
      (a.created_at < b.created_at ∨
        (a.created_at = b.created_at ∧ jsStrLt a.id b.id = false)) := by
  simp only [compareNostrEvents]
  by_cases hca : a.created_at - b.created_at ≠ 0
  · rw [if_pos hca]
    constructor
    · intro h
      exact Or.inl (by omega)
    · intro h
      rcases h with h | h
      · omega
      · omega
  · rw [if_neg hca]
    by_cases h1 : jsStrLt a.id b.id
    · rw [if_pos h1]
      constructor
      · intro h
        omega
      · intro h
        rcases h with h | h
        · omega
        · rw [h1] at h
          exact absurd h.2 (by simp)
    · rw [if_neg h1]
      have hb : jsStrLt a.id b.id = false := by simpa using h1
      by_cases h2 : jsStrLt b.id a.id
      · rw [if_pos h2]
        constructor
        · intro _
          exact Or.inr ⟨by omega, hb⟩
        · intro _
          omega
      · rw [if_neg h2]
        constructor
        · intro _
          exact Or.inr ⟨by omega, hb⟩
        · intro _
          omega

/-- `compareNostrEvents a b > 0` characterized on the fields. -/
theorem compare_pos_iff (a b : NostrEvent) :
    compareNostrEvents a b > 0 ↔
      (b.created_at < a.created_at ∨
        (a.created_at = b.created_at ∧ jsStrLt a.id b.id = true)) := by
  have h := compare_le_iff a b
  constructor
  · intro hpos
    by_contra hc
    push_neg at hc
    have hle : compareNostrEvents a b ≤ 0 := by
      rcases lt_trichotomy a.created_at b.created_at with h1 | h1 | h1
      · exact h.mpr (Or.inl h1)
      · refine h.mpr (Or.inr ⟨h1, ?_⟩)
        by_contra hid
        rw [Bool.not_eq_false] at hid
        exact absurd hid (by simpa [h1] using hc.2 h1)
      · exact absurd h1 (by omega)
    omega
  · intro hc
    by_contra hpos
    have hle : compareNostrEvents a b ≤ 0 := by omega
    rcases h.mp hle with h1 | h1
    · rcases hc with h2 | h2
      · omega
      · omega
    · rcases hc with h2 | h2
      · omega
      · rw [h2.2] at h1
        exact absurd h1.2 (by simp)

/-- The event ordering is transitive on the non-strict side. -/
theorem compare_le_trans (a b c : NostrEvent)
    (hab : compareNostrEvents a b ≤ 0) (hbc : compareNostrEvents b c ≤ 0) :
    compareNostrEvents a c ≤ 0 := by
  rw [compare_le_iff] at hab hbc ⊢
  rcases hab with h1 | ⟨h1, h1id⟩
  · rcases hbc with h2 | ⟨h2, _⟩
    · exact Or.inl (by omega)
    · exact Or.inl (by omega)
  · rcases hbc with h2 | ⟨h2, h2id⟩
    · exact Or.inl (by omega)
    · refine Or.inr ⟨by omega, ?_⟩
      have hA : chLt a.id.data b.id.data = false := by simpa [jsStrLt] using h1id
      have hB : chLt b.id.data c.id.data = false := by simpa [jsStrLt] using h2id
      by_contra hac
      rw [Bool.not_eq_false] at hac
      have hC : chLt a.id.data c.id.data = true := by simpa [jsStrLt] using hac
      rcases chLt_trichotomy a.id.data b.id.data with t1 | t1 | t1
      · exact absurd t1 (by simp [hA])
      · rcases chLt_trichotomy b.id.data c.id.data with t2 | t2 | t2
        · exact absurd t2 (by simp [hB])
        · have := chLt_trans a.id.data c.id.data b.id.data hC t2
          exact absurd this (by simp [hA])
        · rw [← t2] at hC
          exact absurd hC (by simp [hA])
      · rw [t1] at hC
        exact absurd hC (by simp [hB])

/-- A strictly newer event puts the older one on the non-strict side. -/
theorem compare_le_of_pos (a b : NostrEvent)
    (h : compareNostrEvents a b > 0) : compareNostrEvents b a ≤ 0 := by
  rw [compare_pos_iff] at h
  rw [compare_le_iff]
  rcases h with h | ⟨hca, hid⟩
  · exact Or.inl h
  · exact Or.inr ⟨hca.symm, chLt_asymm _ _ hid⟩

/-- Every event compares equal to itself. -/
theorem compare_self_le (a : NostrEvent) : compareNostrEvents a a ≤ 0 := by
  rw [compare_le_iff]
  exact Or.inr ⟨rfl, by simp [jsStrLt, chLt_irrefl]⟩

/-! ### Tracker fold lemmas -/

/-- A key of `setA l k v` is `k` or a key of `l`. -/
theorem mem_keys_setA {K V : Type} [DecidableEq K] (l : List (K × V)) (k k'' : K) (v : V)
    (h : k'' ∈ (setA l k v).map Prod.fst) : k'' = k ∨ k'' ∈ l.map Prod.fst := by
  induction l with
  | nil => exact Or.inl (by simpa [setA] using h)
  | cons p rest ih =>
    obtain ⟨k', v'⟩ := p
    by_cases hk : k' = k
    · subst hk
      have hset : setA ((k', v') :: rest) k' v = (k', v) :: rest := by simp [setA]
      rw [hset] at h
      simp only [List.map_cons, List.mem_cons] at h
      simp only [List.map_cons, List.mem_cons]
      tauto
    · simp only [setA, if_neg hk, List.map_cons, List.mem_cons] at h
      simp only [List.map_cons, List.mem_cons]
      rcases h with h | h
      · exact Or.inr (Or.inl h)
      · rcases ih h with h2 | h2
        · exact Or.inl h2
        · exact Or.inr (Or.inr h2)

/-- `setA` preserves distinctness of the keys (`Map` semantics). -/
theorem nodup_keys_setA {K V : Type} [DecidableEq K] (l : List (K × V)) (k : K) (v : V)
    (h : (l.map Prod.fst).Nodup) : ((setA l k v).map Prod.fst).Nodup := by
  induction l with
  | nil => simp [setA]
  | cons p rest ih =>
    obtain ⟨k', v'⟩ := p
    simp only [List.map_cons, List.nodup_cons] at h
    by_cases hk : k' = k
    · subst hk
      have hset : setA ((k', v') :: rest) k' v = (k', v) :: rest := by simp [setA]
      rw [hset, List.map_cons, List.nodup_cons]
      exact ⟨h.1, h.2⟩
    · simp only [setA, if_neg hk, List.map_cons, List.nodup_cons]
      refine ⟨fun hmem => ?_, ih h.2⟩
      rcases mem_keys_setA rest k k' v hmem with h2 | h2
      · exact hk h2
      · exact h.1 h2

/-- The tracker fold preserves distinctness of the address keys. -/
theorem trackerFold_nodup (evs : List NostrEvent) :
    ∀ entries0 entries, trackerFold evs entries0 = some entries →
    (entries0.map Prod.fst).Nodup → (entries.map Prod.fst).Nodup := by
  induction evs with
  | nil =>
    intro e0 e h h0
    simp only [trackerFold] at h
    cases h
    exact h0
  | cons ev rest ih =>
    intro e0 e h h0
    simp only [trackerFold] at h
    rcases hrep : trackerReplace e0 ev with _ | ⟨out, e1⟩
    · simp only [hrep] at h
      exact Option.noConfusion h
    · simp only [hrep] at h
      refine ih e1 e h ?_
      simp only [trackerReplace] at hrep
      rcases haddr : replaceableEventAddr ev with _ | adv
      · simp only [haddr] at hrep
        exact Option.noConfusion hrep
      · simp only [haddr] at hrep
        rcases hex : lookupA e0 adv with _ | existing
        · simp only [hex] at hrep
          obtain ⟨-, rfl⟩ : (⟨adv, none, some ev⟩ : ReplaceOutcome) = out ∧
              setA e0 adv ev = e1 := by simpa using hrep
          exact nodup_keys_setA e0 adv ev h0
        · simp only [hex] at hrep
          by_cases hcmp : compareNostrEvents ev existing > 0
          · rw [if_pos hcmp] at hrep
            obtain ⟨-, rfl⟩ : (⟨adv, some existing, some ev⟩ : ReplaceOutcome) = out ∧
                setA e0 adv ev = e1 := by simpa using hrep
            exact nodup_keys_setA e0 adv ev h0
          · rw [if_neg hcmp] at hrep
            obtain ⟨-, rfl⟩ : (⟨adv, none, none⟩ : ReplaceOutcome) = out ∧ e0 = e1 := by
              simpa using hrep
            exact h0

/-- Main invariant of the tracker fold: the entry held at an address is a
maximum, under the event ordering, of the initial entry and every processed
event addressed there, and it is one of those events. -/
theorem trackerFold_max (evs : List NostrEvent) :
    ∀ entries0 entries, trackerFold evs entries0 = some entries →
    ∀ addr winner, lookupA entries addr = some winner →
      (lookupA entries0 addr = some winner ∨
        ∃ ev ∈ evs, replaceableEventAddr ev = some addr ∧ ev = winner) ∧
      (∀ ev ∈ evs, replaceableEventAddr ev = some addr →
        compareNostrEvents ev winner ≤ 0) ∧
      (∀ w0, lookupA entries0 addr = some w0 → compareNostrEvents w0 winner ≤ 0) := by
  induction evs with
  | nil =>
    intro e0 e h addr winner hw
    simp only [trackerFold] at h
    cases h
    refine ⟨Or.inl hw, by simp, fun w0 hw0 => ?_⟩
    rw [hw] at hw0
    cases hw0
    exact compare_self_le winner
  | cons ev rest ih =>
    intro e0 e h addr winner hw
    simp only [trackerFold] at h
    rcases hrep : trackerReplace e0 ev with _ | ⟨out, e1⟩
    · simp only [hrep] at h
      exact Option.noConfusion h
    · simp only [hrep] at h
      obtain ⟨ih1, ih2, ih3⟩ := ih e1 e h addr winner hw
      simp only [trackerReplace] at hrep
      rcases haddr : replaceableEventAddr ev with _ | adv
      · simp only [haddr] at hrep
        exact Option.noConfusion hrep
      · simp only [haddr] at hrep
        rcases hex : lookupA e0 adv with _ | existing
        · simp only [hex] at hrep
          obtain ⟨-, rfl⟩ : (⟨adv, none, some ev⟩ : ReplaceOutcome) = out ∧
              setA e0 adv ev = e1 := by simpa using hrep
          refine ⟨?_, ?_, ?_⟩
          · rcases ih1 with h1 | h1
            · by_cases haa : addr = adv
              · subst haa
                rw [lookupA_setA_self] at h1
                cases h1
                exact Or.inr ⟨ev, List.mem_cons_self ev rest, haddr, rfl⟩
              · rw [lookupA_setA_ne e0 adv addr ev haa] at h1
                exact Or.inl h1
            · obtain ⟨ev', hmem, hl⟩ := h1
              exact Or.inr ⟨ev', List.mem_cons_of_mem ev hmem, hl⟩
          · intro ev' hmem haddr'
            rcases List.mem_cons.mp hmem with rfl | hmem'
            · rw [haddr] at haddr'
              cases haddr'
              exact ih3 ev' (lookupA_setA_self _ _ _)
            · exact ih2 ev' hmem' haddr'
          · intro w0 hw0
            by_cases haa : addr = adv
            · subst haa
              rw [hex] at hw0
              cases hw0
            · refine ih3 w0 ?_
              rw [lookupA_setA_ne e0 adv addr ev haa]
              exact hw0
        · simp only [hex] at hrep
          by_cases hcmp : compareNostrEvents ev existing > 0
          · rw [if_pos hcmp] at hrep
            obtain ⟨-, rfl⟩ : (⟨adv, some existing, some ev⟩ : ReplaceOutcome) = out ∧
                setA e0 adv ev = e1 := by simpa using hrep
            refine ⟨?_, ?_, ?_⟩
            · rcases ih1 with h1 | h1
              · by_cases haa : addr = adv
                · subst haa
                  rw [lookupA_setA_self] at h1
                  cases h1
                  exact Or.inr ⟨ev, List.mem_cons_self ev rest, haddr, rfl⟩
                · rw [lookupA_setA_ne e0 adv addr ev haa] at h1
                  exact Or.inl h1
              · obtain ⟨ev', hmem, hl⟩ := h1
                exact Or.inr ⟨ev', List.mem_cons_of_mem ev hmem, hl⟩
            · intro ev' hmem haddr'
              rcases List.mem_cons.mp hmem with rfl | hmem'
              · rw [haddr] at haddr'
                cases haddr'
                exact ih3 ev' (lookupA_setA_self _ _ _)
              · exact ih2 ev' hmem' haddr'
            · intro w0 hw0
              by_cases haa : addr = adv
              · subst haa
                rw [hex] at hw0
                cases hw0
                have h1 : compareNostrEvents ev winner ≤ 0 :=
                  ih3 ev (lookupA_setA_self _ _ _)
                exact compare_le_trans _ ev winner (compare_le_of_pos ev _ hcmp) h1
              · refine ih3 w0 ?_
                rw [lookupA_setA_ne e0 adv addr ev haa]
                exact hw0
          · rw [if_neg hcmp] at hrep
            obtain ⟨-, rfl⟩ : (⟨adv, none, none⟩ : ReplaceOutcome) = out ∧ e0 = e1 := by
              simpa using hrep
            push_neg at hcmp
            refine ⟨?_, ?_, ?_⟩
            · rcases ih1 with h1 | h1
              · exact Or.inl h1
              · obtain ⟨ev', hmem, hl⟩ := h1
                exact Or.inr ⟨ev', List.mem_cons_of_mem ev hmem, hl⟩
            · intro ev' hmem haddr'
              rcases List.mem_cons.mp hmem with rfl | hmem'
              · rw [haddr] at haddr'
                cases haddr'
                have h2 : compareNostrEvents existing winner ≤ 0 := ih3 existing hex
                exact compare_le_trans ev' existing winner hcmp h2
              · exact ih2 ev' hmem' haddr'
            · exact ih3

/-- C8 amended: the tracker holds at most one entry per replaceable address
(distinct keys); after any sequence of replace operations starting from the
empty tracker, the entry at an address is one of the events admitted there
and compares greater-or-equal (under the event ordering) to every event
admitted there; and, on equal `created_at`, the event with the
lexicographically smaller id compares strictly newer, so it is the one
retained. -/
theorem c8_tracker_entry_is_max_of_replaces (evs : List NostrEvent)
    (entries : List (String × NostrEvent))
    (h : trackerFold evs [] = some entries) :
    (entries.map Prod.fst).Nodup ∧
    (∀ addr winner, lookupA entries addr = some winner →
      (∃ ev ∈ evs, replaceableEventAddr ev = some addr ∧ ev = winner) ∧
      (∀ ev ∈ evs, replaceableEventAddr ev = some addr →
        compareNostrEvents ev winner ≤ 0)) ∧
    (∀ e1 e2 : NostrEvent, e1.created_at = e2.created_at → jsStrLt e1.id e2.id = true →
      compareNostrEvents e1 e2 > 0) := by
  refine ⟨trackerFold_nodup evs [] entries h (by simp), fun addr winner hw => ?_,
    fun e1 e2 hca hid => ?_⟩
  · obtain ⟨h1, h2, -⟩ := trackerFold_max evs [] entries h addr winner hw
    rcases h1 with h1 | h1
    · simp [lookupA] at h1
    · exact ⟨h1, h2⟩
  · simp [compareNostrEvents, hca, hid]

/-- C8 amended, witness: replaying the two tied kind-0 events (same author,
same `created_at`, ids `"tb"` then `"ta"`) leaves the lexicographically
smaller `"ta"` as the single tracker entry, which compares greater-or-equal
to the discarded `"tb"` event. -/
theorem c8_tracker_entry_is_max_of_replaces_witness :
    trackerFold [tieBEv, tieAEv] [] = some [("0:p:", tieAEv)] ∧
    ([("0:p:", tieAEv)].map Prod.fst).Nodup ∧
    compareNostrEvents tieBEv tieAEv ≤ 0 := by
  have hfold : trackerFold [tieBEv, tieAEv] [] = some [("0:p:", tieAEv)] := by decide
  have h := c8_tracker_entry_is_max_of_replaces [tieBEv, tieAEv] [("0:p:", tieAEv)] hfold
  exact ⟨hfold, h.1,
    (h.2.1 "0:p:" tieAEv (by decide)).2 tieBEv (by decide) (by decide)⟩

/-! ### Repository state-preservation lemmas (kind-5 insertion) -/

/-- A kind-5 event is classified regular (5 is in none of the special kind
ranges). -/
theorem kind5_handling (ev : NostrEvent) (h : ev.kind = 5) :
    getEventHandling ev = .regular := by
  simp [getEventHandling, isNonParamReplaceableEvent, isParamReplaceableEvent,
    isEphemeralEvent, h]

/-- Lookup after flagging: the stored managed events change only by the flag
map. -/
theorem flagDeleted_lookup (st : RepoState) (id y : String) :
    lookupA (st.flagDeleted id).eventsById y =
      (lookupA st.eventsById y).map (ManagedEvent.flagIf id) :=
  lookupA_map (ManagedEvent.flagIf id) st.eventsById y

/-- `deleteById` never touches the deleted-id set and never adds a key to
`eventsById`. -/
theorem deleteById_preserve (st : RepoState) (id r y : String) :
    (st.deleteById id r).2.deletedEvents = st.deletedEvents ∧
    (lookupA st.eventsById y = none →
      lookupA (st.deleteById id r).2.eventsById y = none) := by
  simp only [RepoState.deleteById]
  cases hl : lookupA st.eventsById id
  · simp
  · dsimp only
    split_ifs
    · simp
    · simp
    · refine ⟨rfl, fun hnone => ?_⟩
      rw [flagDeleted_lookup, hnone]
      rfl

/-- `deleteByAddr` never touches the deleted-id set and never adds a key to
`eventsById`. -/
theorem deleteByAddr_preserve (st : RepoState) (a r y : String) :
    (st.deleteByAddr a r).deletedEvents = st.deletedEvents ∧
    (lookupA st.eventsById y = none →
      lookupA (st.deleteByAddr a r).eventsById y = none) := by
  simp only [RepoState.deleteByAddr]
  cases hdel : (trackerDelete st.reTracker a).1
  · simp
  · dsimp only
    split_ifs
    · simp
    · exact deleteById_preserve _ _ _ y

/-- The `e`-tag loop never resurrects an id that is not stored: if `x` is not
a key of `eventsById` and not in the deleted-id set, it stays that way (in
particular `deleteById x` keeps failing, so `x` is never recorded as
deleted). -/
theorem kind5DeleteETags_preserve (pk : String) (etags : List String) :
    ∀ st x, lookupA st.eventsById x = none → x ∉ st.deletedEvents →
      lookupA (kind5DeleteETags pk st etags).eventsById x = none ∧
      x ∉ (kind5DeleteETags pk st etags).deletedEvents := by
  induction etags with
  | nil =>
    intro st x h1 h2
    exact ⟨h1, h2⟩
  | cons e rest ih =>
    intro st x h1 h2
    simp only [kind5DeleteETags]
    have dp := deleteById_preserve st e pk x
    by_cases hres : (st.deleteById e pk).1 = true
    · rw [if_pos hres]
      have hex : e ≠ x := by
        intro hh
        subst hh
        have hfail : st.deleteById e pk = (false, st) := by
          simp [RepoState.deleteById, h1]
        rw [hfail] at hres
        exact Bool.false_ne_true hres
      refine ih _ x (dp.2 h1) ?_
      simp only [List.mem_insert_iff, not_or]
      exact ⟨fun hh => hex hh.symm, by rw [dp.1]; exact h2⟩
    · rw [if_neg hres]
      exact ih _ x (dp.2 h1) (by rw [dp.1]; exact h2)

/-- The `a`-tag loop preserves the same two facts. -/
theorem kind5DeleteATags_preserve (pk : String) (atags : List String) :
    ∀ st x, lookupA st.eventsById x = none → x ∉ st.deletedEvents →
      lookupA (kind5DeleteATags pk st atags).eventsById x = none ∧
      x ∉ (kind5DeleteATags pk st atags).deletedEvents := by
  induction atags with
  | nil =>
    intro st x h1 h2
    exact ⟨h1, h2⟩
  | cons a rest ih =>
    intro st x h1 h2
    simp only [kind5DeleteATags]
    have dp := deleteByAddr_preserve st a pk x
    exact ih _ x (dp.2 h1) (by rw [dp.1]; exact h2)

/-- The sift of `EventBucket.insert` keeps the inserted event in the list. -/
theorem mem_siftBackRev (mev : ManagedEvent) (l : List ManagedEvent) :
    mev ∈ siftBackRev mev l := by
  induction l with
  | nil => exact List.mem_singleton_self mev
  | cons e rest ih =>
    simp only [siftBackRev]
    split_ifs
    · exact List.mem_cons_self _ _
    · exact List.mem_cons_of_mem e ih

/-- `takeWhile` with an everywhere-true predicate is the identity. -/
theorem takeWhile_all {α : Type} (p : α → Bool) (l : List α)
    (h : ∀ a ∈ l, p a = true) : l.takeWhile p = l := by
  induction l with
  | nil => rfl
  | cons a rest ih =>
    rw [List.takeWhile_cons, if_pos (h a (List.mem_cons_self a rest))]
    rw [ih (fun b hb => h b (List.mem_cons_of_mem a hb))]

/-- Membership in a bucket query without time bounds: every stored, live,
matching event is yielded. -/
theorem query_mem_of_no_bounds (b : EventBucket) (f : Filter)
    (hu : f.untilTime = none) (hs : f.since = none) (mev : ManagedEvent)
    (hm : mev ∈ b.events) (hdel : mev.deleted = false)
    (hmatch : matchFilter f mev.event = true) :
    ∃ l, b.query f = some l ∧ mev.event ∈ l := by
  refine ⟨bucketQueryRun b.events f ((b.events.length : Int) - 1), ?_, ?_⟩
  · simp only [EventBucket.query, hu]
    rw [if_neg (by omega)]
  · simp only [bucketQueryRun, List.mem_map]
    refine ⟨mev, ?_, rfl⟩
    rw [List.mem_filter]
    have htake : (((b.events.length : Int) - 1) + 1).toNat = b.events.length := by omega
    constructor
    · rw [htake, List.take_length]
      rw [takeWhile_all _ _ (fun a _ => by simp [sinceBreak, hs])]
      exact List.mem_reverse.mpr hm
    · simp [hdel, hmatch]

/-- C10: deletion is not retroactive.  If a kind-5 event `D` (fresh,
insertable) carries an `e`-tag value `x` that is not a stored id, inserting
`D` succeeds but does not add `x` to the deleted-id set; a later insert of a
regular event `E` with id `x` then succeeds with OK, stores `E` live, and `E`
is observable via the repository query path (the global bucket yields it for
the filter `ids = [x]`). -/
theorem c10_dangling_deletion_not_retroactive (st : RepoState) (D E : NostrEvent)
    (x : String)
    (hD5 : D.kind = 5)
    (hDfresh : lookupA st.eventsById D.id = none)
    (hDnotdel : D.id ∉ st.deletedEvents)
    (_hx : x ∈ getTagValuesByName D "e")
    (hxAbsent : lookupA st.eventsById x = none)
    (hxNotdel : x ∉ st.deletedEvents)
    (hxD : x ≠ D.id)
    (hE : E.id = x)
    (hEreg : getEventHandling E = .regular)
    (hE5 : E.kind ≠ 5) :
    ∃ st1, st.insert D = some (.ok, st1) ∧
      lookupA st1.eventsById x = none ∧ x ∉ st1.deletedEvents ∧
      ∃ st2, st1.insert E = some (.ok, st2) ∧
        lookupA st2.eventsById x = some ⟨E, false⟩ ∧
        ∃ l, st2.allEventsSorted.query { ids := some [x] } = some l ∧ E ∈ l := by
  have hDhand := kind5_handling D hD5
  have h1 : st.insert D = some (.ok,
      kind5DeleteATags D.pubkey
        (kind5DeleteETags D.pubkey (st.store D) (getTagValuesByName D "e"))
        (getTagValuesByName D "a")) := by
    simp [RepoState.insert, hDhand, hDfresh, hDnotdel, hD5]
  have hstore1 : lookupA (st.store D).eventsById x = none := by
    simp only [RepoState.store]
    rw [lookupA_setA_ne st.eventsById D.id x ⟨D, false⟩ hxD]
    exact hxAbsent
  have hstore2 : x ∉ (st.store D).deletedEvents := hxNotdel
  have hfold1 := kind5DeleteETags_preserve D.pubkey (getTagValuesByName D "e")
    (st.store D) x hstore1 hstore2
  have hfold2 := kind5DeleteATags_preserve D.pubkey (getTagValuesByName D "a")
    _ x hfold1.1 hfold1.2
  refine ⟨_, h1, hfold2.1, hfold2.2, ?_⟩
  set st1 := kind5DeleteATags D.pubkey
    (kind5DeleteETags D.pubkey (st.store D) (getTagValuesByName D "e"))
    (getTagValuesByName D "a") with hst1
  have hEfresh : lookupA st1.eventsById E.id = none := by
    rw [hE]
    exact hfold2.1
  have hEnotdel : E.id ∉ st1.deletedEvents := by
    rw [hE]
    exact hfold2.2
  have h2 : st1.insert E = some (.ok, st1.store E) := by
    simp [RepoState.insert, hEreg, hEfresh, hEnotdel, hE5]
  refine ⟨_, h2, ?_, ?_⟩
  · simp only [RepoState.store]
    rw [hE]
    exact lookupA_setA_self st1.eventsById x ⟨E, false⟩
  · have hmem : (⟨E, false⟩ : ManagedEvent) ∈ (st1.store E).allEventsSorted.events := by
      simp only [RepoState.store, EventBucket.insertEv]
      exact List.mem_reverse.mpr (mem_siftBackRev _ _)
    have hmatch : matchFilter { ids := some [x] } E = true := by
      simp [matchFilter, hE]
    exact query_mem_of_no_bounds _ _ rfl rfl _ hmem rfl hmatch

/-- C10 witness: on the fresh repository, the kind-5 event referencing the
unknown id `x1` inserts OK without recording `x1` as deleted, and the later
event with id `x1` inserts OK, is stored live, and is yielded by the
global-bucket query for `ids = [x1]`. -/
theorem c10_dangling_deletion_not_retroactive_witness :
    ∃ st1, initState.insert danglingD5Ev = some (.ok, st1) ∧
      lookupA st1.eventsById "x1" = none ∧ "x1" ∉ st1.deletedEvents ∧
      ∃ st2, st1.insert laterEv = some (.ok, st2) ∧
        lookupA st2.eventsById "x1" = some ⟨laterEv, false⟩ ∧
        ∃ l, st2.allEventsSorted.query { ids := some ["x1"] } = some l ∧ laterEv ∈ l :=
  c10_dangling_deletion_not_retroactive initState danglingD5Ev laterEv "x1"
    (by decide) (by decide) (by decide) (by decide) (by decide) (by decide)
    (by decide) (by decide) (by decide) (by decide)

end Strtr
